import Mathlib

/-
Verification of the tornado-warning monitor server (`server.js`).
The JavaScript source is shallowly embedded: pure fragments become Lean
functions, the scheduled cycles become explicit state-passing step
functions, network effects become explicit environment parameters, and
thrown exceptions become `Option`/`Except` results.
-/

/- ## JavaScript `Date` model

Calendar arithmetic (Howard Hinnant's civil-date algorithms) relating epoch
days to Gregorian calendar fields, used to model the JavaScript `Date`
object: a `Date` is an instant, represented as milliseconds since the Unix
epoch (`Int`). -/

def isLeap (y : Int) : Bool :=
  (y % 4 == 0 && y % 100 != 0) || y % 400 == 0

def daysInMonth (y : Int) (m : Nat) : Nat :=
  match m with
  | 1 => 31
  | 2 => if isLeap y then 29 else 28
  | 3 => 31
  | 4 => 30
  | 5 => 31
  | 6 => 30
  | 7 => 31
  | 8 => 31
  | 9 => 30
  | 10 => 31
  | 11 => 30
  | 12 => 31
  | _ => 0

/-- Days since 1970-01-01 of the civil date `y-m-d` (Hinnant's
`days_from_civil`; `Int./` is flooring division for positive divisors, so
the truncation adjustments of the C original are unnecessary). -/
def daysFromCivil (y : Int) (m d : Nat) : Int :=
  let y' : Int := if m ≤ 2 then y - 1 else y
  let era : Int := y' / 400
  let yoe : Int := y' - era * 400
  let mp : Int := if 2 < m then (m : Int) - 3 else (m : Int) + 9
  let doy : Int := (153 * mp + 2) / 5 + (d : Int) - 1
  let doe : Int := yoe * 365 + yoe / 4 - yoe / 100 + doy
  era * 146097 + doe - 719468

/-- Civil date `(y, m, d)` of a count of days since 1970-01-01
(Hinnant's `civil_from_days`). -/
def civilFromDays (z : Int) : Int × Nat × Nat :=
  let z := z + 719468
  let era : Int := z / 146097
  let doe : Int := z - era * 146097
  let yoe : Int := (doe - doe / 1460 + doe / 36524 - doe / 146096) / 365
  let y : Int := yoe + era * 400
  let doy : Int := doe - (365 * yoe + yoe / 4 - yoe / 100)
  let mp : Int := (5 * doy + 2) / 153
  let d : Int := doy - (153 * mp + 2) / 5 + 1
  let m : Int := if mp < 10 then mp + 3 else mp - 9
  (if m ≤ 2 then y + 1 else y, m.toNat, d.toNat)

/-- Left-pad the decimal representation of `n` with zeroes to width `w`. -/
def padNum (w : Nat) (n : Nat) : String :=
  let s := toString n
  String.mk (List.replicate (w - s.length) '0') ++ s

/-- `Date.prototype.toISOString`: canonical `YYYY-MM-DDTHH:mm:ss.sssZ`
rendering of an instant (four-digit years suffice for this program). -/
def toISOString (ms : Int) : String :=
  let days := Int.ediv ms 86400000
  let rem := (Int.emod ms 86400000).toNat
  let c := civilFromDays days
  padNum 4 c.1.toNat ++ "-" ++ padNum 2 c.2.1 ++ "-" ++ padNum 2 c.2.2 ++ "T" ++
    padNum 2 (rem / 3600000) ++ ":" ++ padNum 2 (rem / 60000 % 60) ++ ":" ++
    padNum 2 (rem / 1000 % 60) ++ "." ++ padNum 3 (rem % 1000) ++ "Z"

/- ### ECMAScript Date Time String Format parser

`new Date(string)` first tries the spec-defined format
`YYYY[-MM[-DD]][THH:mm[:ss[.sss]][Z | +HH:mm | -HH:mm]]`; date-only forms
are interpreted as UTC, date-time forms without a timezone designator as
local time.  Strings outside this format fall to implementation-specific
heuristics, which this model maps to "invalid".  Local time is modelled by
an explicit parameter `tz`, the local offset east of UTC in minutes. -/

def digitVal (c : Char) : Nat := c.toNat - 48

/-- Consume exactly `n` decimal digits, returning their value and the rest. -/
def takeDigitsAux : Nat → Nat → List Char → Option (Nat × List Char)
  | 0, acc, cs => some (acc, cs)
  | n + 1, acc, c :: cs =>
      if c.isDigit then takeDigitsAux n (acc * 10 + digitVal c) cs else none
  | _ + 1, _, [] => none

def takeDigits (n : Nat) (cs : List Char) : Option (Nat × List Char) :=
  takeDigitsAux n 0 cs

/-- Parse the optional `-MM[-DD]` tail of the date part (defaults 1, 1). -/
def parseMonthDay (cs : List Char) : Option (Nat × Nat × List Char) :=
  match cs with
  | [] => some (1, 1, [])
  | c :: cs0 =>
      if c = '-' then
        match takeDigits 2 cs0 with
        | none => none
        | some (mo, cs1) =>
            match cs1 with
            | [] => some (mo, 1, [])
            | c1 :: cs2 =>
                if c1 = '-' then
                  match takeDigits 2 cs2 with
                  | none => none
                  | some (d, cs3) => some (mo, d, cs3)
                else some (mo, 1, c1 :: cs2)
      else some (1, 1, c :: cs0)

/-- Parse the optional `:ss[.sss]` tail of the time part (defaults 0, 0). -/
def parseSecFrac (cs : List Char) : Option (Nat × Nat × List Char) :=
  match cs with
  | [] => some (0, 0, [])
  | c :: cs0 =>
      if c = ':' then
        match takeDigits 2 cs0 with
        | none => none
        | some (s, cs1) =>
            match cs1 with
            | [] => some (s, 0, [])
            | c1 :: cs2 =>
                if c1 = '.' then
                  match takeDigits 3 cs2 with
                  | none => none
                  | some (f, cs3) => some (s, f, cs3)
                else some (s, 0, c1 :: cs2)
      else some (0, 0, c :: cs0)

/-- Parse the numeric part `HH:mm` of a timezone offset, in minutes. -/
def parseOffsetNum (cs0 : List Char) : Option (Nat × List Char) :=
  match takeDigits 2 cs0 with
  | none => none
  | some (h, cs1) =>
      match cs1 with
      | [] => none
      | c1 :: cs2 =>
          if c1 = ':' then
            match takeDigits 2 cs2 with
            | none => none
            | some (m, cs3) =>
                if h ≤ 23 && m ≤ 59 then some (h * 60 + m, cs3) else none
          else none

/-- Parse the optional timezone designator: `Z`, `+HH:mm` or `-HH:mm`,
returned as minutes east of UTC. -/
def parseTZD (cs : List Char) : Option (Option Int × List Char) :=
  match cs with
  | [] => some (none, [])
  | c :: cs0 =>
      if c = 'Z' then some (some 0, cs0)
      else if c = '+' then
        match parseOffsetNum cs0 with
        | none => none
        | some (n, cs3) => some (some (n : Int), cs3)
      else if c = '-' then
        match parseOffsetNum cs0 with
        | none => none
        | some (n, cs3) => some (some (-(n : Int)), cs3)
      else some (none, c :: cs0)

structure TimeComps where
  hour : Nat
  minute : Nat
  second : Nat
  ms : Nat
  tzOffset : Option Int
  deriving DecidableEq, Repr

/-- Parse the time part `THH:mm[:ss[.sss]][designator]`. -/
def parseTimePart (cs : List Char) : Option (TimeComps × List Char) :=
  match cs with
  | [] => none
  | c :: cs0 =>
      if c = 'T' then
        match takeDigits 2 cs0 with
        | none => none
        | some (h, cs1) =>
            match cs1 with
            | [] => none
            | c1 :: cs2 =>
                if c1 = ':' then
                  match takeDigits 2 cs2 with
                  | none => none
                  | some (mi, cs3) =>
                      match parseSecFrac cs3 with
                      | none => none
                      | some (s, f, cs4) =>
                          match parseTZD cs4 with
                          | none => none
                          | some (tzo, cs5) => some (⟨h, mi, s, f, tzo⟩, cs5)
                else none
      else none

structure DateTimeComps where
  year : Int
  month : Nat
  day : Nat
  time : Option TimeComps
  deriving DecidableEq, Repr

/-- Parse a whole Date Time String Format string (whole input consumed). -/
def parseDateTime (cs : List Char) : Option DateTimeComps :=
  match takeDigits 4 cs with
  | none => none
  | some (y, cs1) =>
      match parseMonthDay cs1 with
      | none => none
      | some (mo, d, cs2) =>
          match cs2 with
          | [] => some ⟨(y : Int), mo, d, none⟩
          | c :: cs2' =>
              match parseTimePart (c :: cs2') with
              | none => none
              | some (t, cs3) =>
                  match cs3 with
                  | [] => some ⟨(y : Int), mo, d, some t⟩
                  | _ :: _ => none

/-- Field-range validation performed by the engine on parsed components. -/
def validComps (c : DateTimeComps) : Bool :=
  decide (1 ≤ c.month) && decide (c.month ≤ 12) && decide (1 ≤ c.day) &&
  decide (c.day ≤ daysInMonth c.year c.month) &&
  (match c.time with
   | none => true
   | some t =>
       (decide (t.hour < 24) ||
         (decide (t.hour = 24) && decide (t.minute = 0) && decide (t.second = 0) &&
           decide (t.ms = 0))) &&
       decide (t.minute ≤ 59) && decide (t.second ≤ 59))

/-- Epoch milliseconds of parsed components: date-only is UTC midnight, a
date-time uses its designator, or the local offset `tz` when absent. -/
def compsToMillis (tz : Int) (c : DateTimeComps) : Int :=
  let days := daysFromCivil c.year c.month c.day
  match c.time with
  | none => days * 86400000
  | some t =>
      let base : Int :=
        days * 86400000 +
          ((t.hour * 3600000 + t.minute * 60000 + t.second * 1000 + t.ms : Nat) : Int)
      match t.tzOffset with
      | some off => base - off * 60000
      | none => base - tz * 60000

/-- `new Date(string).getTime()`: `none` models an Invalid Date. -/
def jsDateParse (tz : Int) (s : String) : Option Int :=
  match parseDateTime s.toList with
  | none => none
  | some c => if validComps c then some (compsToMillis tz c) else none

/-- JavaScript `String.prototype.includes` for a single character. -/
def strContains (s : String) (c : Char) : Bool := s.toList.contains c

/-- The regular expression test for a bare date, `/^\d{4}-\d{2}-\d{2}$/`. -/
def matchesBareDate (s : String) : Bool :=
  match s.toList with
  | [y1, y2, y3, y4, h1, m1, m2, h2, d1, d2] =>
      y1.isDigit && y2.isDigit && y3.isDigit && y4.isDigit && h1 == '-' &&
      m1.isDigit && m2.isDigit && h2 == '-' && d1.isDigit && d2.isDigit
  | _ => false

/-- `validateAndFormatTimestamp` from `server.js`: branch on the shape of the
input, parse, and re-render canonically; `none` models the thrown
`Invalid timestamp format` error. -/
def validateAndFormatTimestamp (tz : Int) (timestamp : String) : Option String :=
  let date : Option Int :=
    if strContains timestamp 'T' && strContains timestamp 'Z' then
      jsDateParse tz timestamp
    else if strContains timestamp 'T' && !strContains timestamp 'Z' then
      jsDateParse tz (timestamp ++ "Z")
    else if matchesBareDate timestamp then
      jsDateParse tz (timestamp ++ "T00:00:00Z")
    else
      jsDateParse tz timestamp
  date.map toISOString

/- ## GeoJSON feed model

The upstream feed is a GeoJSON feature collection.  Property values are
modelled with `Option` (`none` = the property is absent/undefined on the
JSON object); numbers on warning records are modelled exactly
(coordinates as rationals, counters as integers). -/

structure Props where
  ps : Option String
  wfo : Option String
  year : Option Int
  phenomena : Option String
  significance : Option String
  eventid : Option Int
  product_id : Option String
  issue : Option String
  expire_utc : Option String
  status : Option String
  polygon_begin : Option String
  polygon_end : Option String
  windtag : Option String
  hailtag : Option String
  tornadotag : Option String
  is_pds : Option Bool
  is_emergency : Option Bool
  product_signature : Option String
  href : Option String
  deriving DecidableEq, Repr

def emptyProps : Props :=
  ⟨none, none, none, none, none, none, none, none, none, none, none, none, none,
    none, none, none, none, none, none⟩

/-- A GeoJSON coordinate pair `[longitude, latitude]`. -/
abbrev Coord := ℚ × ℚ

inductive Geometry where
  | polygon (rings : List (List Coord))
  | multiPolygon (polys : List (List (List Coord)))
  | other
  deriving DecidableEq, Repr

structure Feature where
  id : String
  properties : Option Props
  geometry : Option Geometry
  deriving DecidableEq, Repr

structure FeedDoc where
  features : Option (List Feature)
  deriving DecidableEq, Repr

structure BBox where
  xmin : ℚ
  ymin : ℚ
  xmax : ℚ
  ymax : ℚ
  deriving DecidableEq, Repr

/-- `Math.min(...xs)` over a non-empty spread (`0` is a junk value for `[]`,
where JavaScript would yield `Infinity`; no claim touches that case). -/
def listMin : List ℚ → ℚ
  | [] => 0
  | x :: xs => xs.foldl min x

def listMax : List ℚ → ℚ
  | [] => 0
  | x :: xs => xs.foldl max x

/-- Min/max corners over a flattened coordinate list, each side pushed out
by `margin`.  An empty coordinate list is mapped to `none` (JavaScript
would build a box of infinities, which has no finite rational counterpart;
the claims only concern non-empty polygons). -/
def bboxOf (coords : List Coord) (margin : ℚ) : Option BBox :=
  match coords with
  | [] => none
  | c :: cs =>
      let lons := (c :: cs).map Prod.fst
      let lats := (c :: cs).map Prod.snd
      some ⟨listMin lons - margin, listMin lats - margin,
            listMax lons + margin, listMax lats + margin⟩

/-- `getBoundingBox` from `server.js`: `Polygon` coordinates are flattened
one level (`.flat()`), `MultiPolygon` two levels (`.flat(2)`); any other
geometry (or a missing one) yields `null`. -/
def getBoundingBox (geometry : Option Geometry) (margin : ℚ) : Option BBox :=
  match geometry with
  | some (Geometry.polygon rings) => bboxOf rings.flatten margin
  | some (Geometry.multiPolygon polys) => bboxOf polys.flatten.flatten margin
  | _ => none

/-- JavaScript template-literal interpolation of a possibly-undefined string. -/
def jsShowS : Option String → String
  | some s => s
  | none => "undefined"

/-- JavaScript template-literal interpolation of a possibly-undefined number. -/
def jsShowI : Option Int → String
  | some n => toString n
  | none => "undefined"

/-- JavaScript truthiness of an optional string (empty string is falsy). -/
def truthyS : Option String → Bool
  | some s => s != ""
  | none => false

/-- JavaScript truthiness of an optional number (zero is falsy). -/
def truthyI : Option Int → Bool
  | some n => n != 0
  | none => false

/-- `formatTimestampForRadMap` from `server.js`: compact `YYYYMMDDHHMM`
UTC rendering of a parseable timestamp, `""` otherwise. -/
def formatTimestampForRadMap (tz : Int) (ts : Option String) : String :=
  if truthyS ts = false then ""
  else
    match jsDateParse tz (ts.getD "") with
    | none => ""
    | some m =>
        let days := Int.ediv m 86400000
        let rem := (Int.emod m 86400000).toNat
        let c := civilFromDays days
        padNum 4 c.1.toNat ++ padNum 2 c.2.1 ++ padNum 2 c.2.2 ++
          padNum 2 (rem / 3600000) ++ padNum 2 (rem / 60000 % 60)

/-- Rendering of a rational coordinate into the radar-map URL (numeric
formatting of JavaScript floats is abstracted). -/
def ratStr (q : ℚ) : String := toString q

/-- The radar-map URL: built only when both a bounding box and a truthy
issue time are available. -/
def radmapUrlOf (tz : Int) (bbox : Option BBox) (issued : Option String) : Option String :=
  match bbox with
  | some b =>
      if truthyS issued then
        some ("https://mesonet.agron.iastate.edu/GIS/radmap.php?layers[]=nexrad&layers[]=sbw&layers[]=places&layers[]=interstates&layers[]=uscounties&bbox=" ++
          ratStr b.xmin ++ "," ++ ratStr b.ymin ++ "," ++ ratStr b.xmax ++ "," ++
          ratStr b.ymax ++ "&width=800&height=600&ts=" ++
          formatTimestampForRadMap tz issued ++ "&title=Tornado%20Warning")
      else none
  | none => none

/-- The plot-image URL: built only when all five identification properties
are truthy (`if (wfo && year && phenomena && significance && eventid)`). -/
def plotImageUrlOf (p : Props) : Option String :=
  if truthyS p.wfo && truthyI p.year && truthyS p.phenomena &&
      truthyS p.significance && truthyI p.eventid then
    some ("https://mesonet.agron.iastate.edu/plotting/auto/plot/208/network:WFO::wfo:" ++
      jsShowS p.wfo ++ "::year:" ++ jsShowI p.year ++ "::phenomenav:" ++
      jsShowS p.phenomena ++ "::significancev:" ++ jsShowS p.significance ++
      "::etn:" ++ jsShowI p.eventid ++ "::opt:single::n:auto::_r:88::dpi:200.png")
  else none

/-- The raw-text URL: built whenever `product_id` is truthy. -/
def nwstextUrlOf (p : Props) : Option String :=
  if truthyS p.product_id then
    some ("https://mesonet.agron.iastate.edu/json/nwstext.py?product_id=" ++
      jsShowS p.product_id)
  else none

/-- One extracted tornado-warning record (the object literal returned by
the `map` in `parseTornadoWarnings`). -/
structure Warning where
  id : String
  properties : Props
  geometry : Option Geometry
  wfo : Option String
  eventid : Option Int
  status : Option String
  issued : Option String
  expires : Option String
  polygonBegin : Option String
  polygonEnd : Option String
  windtag : Option String
  hailtag : Option String
  tornadotag : Option String
  isPDS : Option Bool
  isEmergency : Option Bool
  productSignature : Option String
  href : Option String
  radmapImageUrl : Option String
  plotImageUrl : Option String
  nwstextUrl : Option String
  deriving DecidableEq, Repr

/-- The per-feature body of the `map` in `parseTornadoWarnings`.  The map
runs only over filtered features, whose `properties` are present; the
`emptyProps` default is unreachable there. -/
def mkWarning (tz : Int) (f : Feature) : Warning :=
  let p := f.properties.getD emptyProps
  let bbox := getBoundingBox f.geometry 0.2
  ⟨f.id, p, f.geometry, p.wfo, p.eventid, p.status, p.issue, p.expire_utc,
    p.polygon_begin, p.polygon_end, p.windtag, p.hailtag, p.tornadotag,
    p.is_pds, p.is_emergency, p.product_signature, p.href,
    radmapUrlOf tz bbox p.issue, plotImageUrlOf p, nwstextUrlOf p⟩

/-- The filter predicate of `parseTornadoWarnings`:
`properties && properties.ps === "Tornado Warning"`. -/
def isTornadoWarning (f : Feature) : Bool :=
  match f.properties with
  | some p => p.ps == some "Tornado Warning"
  | none => false

/-- `parseTornadoWarnings` from `server.js`: filter the feature collection
to tornado warnings and build one `Warning` per kept feature. -/
def parseTornadoWarnings (tz : Int) (geoJsonData : Option FeedDoc) : List Warning :=
  match geoJsonData with
  | none => []
  | some d =>
      match d.features with
      | none => []
      | some fs => (fs.filter isTornadoWarning).map (mkWarning tz)

/- ## Webhook dispatch model

Network effects of one dispatch are an explicit environment; a thrown
`axios` error is `Except.error`.  The text response payload models
`response.data.products` (`none` when the `data && Array.isArray(...)`
shape check fails), each product reduced to its optional `data` field. -/

structure WebhookEnv where
  fetchText : String → Except String (Option (List (Option String)))
  fetchImage : String → Except String Nat
  post : String → Option Nat → Except String Unit

/-- Extraction of the first product's text; every non-matching shape leaves
`textData` as the empty string. -/
def extractProductText (products : Option (List (Option String))) : String :=
  match products with
  | some (some t :: _) => t
  | _ => ""

/-- JavaScript `substring(0, n)` (first `n` code units). -/
def jsSubstring0 (s : String) (n : Nat) : String := String.mk (s.data.take n)

/-- The `content` field of the multipart form posted to the webhook
(identical template literal at both dispatch sites in `server.js`). -/
def composeContent (w : Warning) (textData : String) : String :=
  "**Tornado Warning**\nWFO: " ++ jsShowS w.wfo ++ "\nEvent ID: " ++
    jsShowI w.eventid ++ "\nStatus: " ++ jsShowS w.status ++ "\nExpires: " ++
    jsShowS w.expires ++ "\n\n**Raw Text:**\n​\n" ++
    jsSubstring0 textData 1800 ++
    (if 1800 < textData.length then "..." else "")

/-- The part of `composeContent` that does not depend on the raw text. -/
def msgHeader (w : Warning) : String :=
  "**Tornado Warning**\nWFO: " ++ jsShowS w.wfo ++ "\nEvent ID: " ++
    jsShowI w.eventid ++ "\nStatus: " ++ jsShowS w.status ++ "\nExpires: " ++
    jsShowS w.expires ++ "\n\n**Raw Text:**\n​\n"

/-- The body of one iteration of a dispatch loop: fetch the raw text (when
a URL exists), fetch the plot image (when a URL exists), then POST the
multipart form.  Any step may throw. -/
def dispatchWarning (env : WebhookEnv) (w : Warning) : Except String Unit := do
  let textData ←
    match w.nwstextUrl with
    | some url => (env.fetchText url).map extractProductText
    | none => Except.ok ""
  let imageBuf ←
    match w.plotImageUrl with
    | some url => (env.fetchImage url).map some
    | none => Except.ok (none : Option Nat)
  env.post (composeContent w textData) imageBuf

def dispatchOK (env : WebhookEnv) (w : Warning) : Bool :=
  match dispatchWarning env w with
  | Except.ok _ => true
  | Except.error _ => false

/-- The `for (const warning of trulyNew)` loop of `monitorTornadoWarnings`:
each iteration has its own `try`/`catch`, so every warning is attempted;
the result collects the sent and the failed warnings in feed order. -/
def runDispatchLoop (env : WebhookEnv) : List Warning → List Warning × List Warning
  | [] => ([], [])
  | w :: ws =>
      let r := runDispatchLoop env ws
      match dispatchWarning env w with
      | Except.ok _ => (w :: r.1, r.2)
      | Except.error _ => (r.1, w :: r.2)

/-- The module-level mutable state touched by the tornado-warning cycle. -/
structure MonitorState where
  tornadoWarnings : List Warning
  lastUpdate : Option String
  deriving DecidableEq, Repr

/-- One scheduled tornado-warning cycle (`monitorTornadoWarnings` in
`server.js`): `fetched` is the result of `fetchCurrentWarnings` (`none` =
fetch failed), `now` the cycle's wall-clock ISO string.  Returns the new
state together with the warnings sent and the warnings whose dispatch
failed. -/
def monitorTornadoWarnings (env : WebhookEnv) (tz : Int) (fetched : Option FeedDoc)
    (now : String) (st : MonitorState) : MonitorState × List Warning × List Warning :=
  match fetched with
  | none => (st, [], [])
  | some d =>
      let newTornadoWarnings := parseTornadoWarnings tz (some d)
      let prevIds := st.tornadoWarnings.map (fun w => w.id)
      let trulyNew := newTornadoWarnings.filter (fun w => !(prevIds.contains w.id))
      let r := runDispatchLoop env trulyNew
      (⟨newTornadoWarnings, some now⟩, r)

/-- The dispatch loop of `POST /api/simulate-tornado-warnings`: same
per-warning `try`/`catch`, but tallying `sent`/`failed` counters. -/
def simulateTally (env : WebhookEnv) : List Warning → Nat × Nat
  | [] => (0, 0)
  | w :: ws =>
      let r := simulateTally env ws
      match dispatchWarning env w with
      | Except.ok _ => (r.1 + 1, r.2)
      | Except.error _ => (r.1, r.2 + 1)

/- ## Mesoscale-discussion cycle model -/

structure MdItem where
  guidVal : Option String
  link : String
  title : String
  description : Option String
  deriving DecidableEq, Repr

/-- `item.guid[0]._ || item.link[0]` (JavaScript `||` also falls through on
the empty string). -/
def mdIdentifier (it : MdItem) : String :=
  match it.guidVal with
  | some g => if g = "" then it.link else g
  | none => it.link

/-- One scheduled mesoscale-discussion cycle (`monitorMesoscaleDiscussions`
in `server.js`).  `seen` is the cumulative `lastMdIds` set (as a list),
`env it = false` means some step of `it`'s dispatch threw.  The whole item
loop sits inside a single `try`/`catch`, so a throw ends the cycle; the
`Bool` of the result records whether the loop ran to completion.  The
identifier is added to `seen` right after the membership test, before the
dispatch is attempted. -/
def monitorMesoscaleDiscussions (env : MdItem → Bool) :
    List MdItem → List String → List String × List String × Bool
  | [], seen => (seen, [], true)
  | it :: rest, seen =>
      let g := mdIdentifier it
      if seen.contains g then monitorMesoscaleDiscussions env rest seen
      else if env it then
        let r := monitorMesoscaleDiscussions env rest (g :: seen)
        (r.1, g :: r.2.1, r.2.2)
      else (g :: seen, [], false)

/- ## Time-range query surface -/

/-- `fetchWarningsForTimeRange` from `server.js`: both endpoints are
normalized inside a `try` whose `catch` returns `null`, so an invalid
timestamp (and any upstream failure, modelled by `upstream` returning
`none`) yields `none` rather than an exception. -/
def fetchWarningsForTimeRange (upstream : String → String → Option FeedDoc)
    (tz : Int) (startTime endTime : String) : Option FeedDoc :=
  match validateAndFormatTimestamp tz startTime with
  | none => none
  | some s =>
      match validateAndFormatTimestamp tz endTime with
      | none => none
      | some e => upstream s e

/-- JSON envelope sent by `GET /api/tornado-warnings/range` (reduced to
the fields the claims mention). -/
structure RangeResponse where
  status : Nat
  success : Bool
  errMsg : Option String
  count : Option Nat
  deriving DecidableEq, Repr

/-- `GET /api/tornado-warnings/range`: missing parameters give a 400;
otherwise fetch, parse and answer 200.  The route's `catch`/500 branch is
unreachable for timestamp errors because `fetchWarningsForTimeRange`
never throws. -/
def rangeEndpoint (upstream : String → String → Option FeedDoc) (tz : Int)
    (startQ endQ : Option String) : RangeResponse :=
  match startQ, endQ with
  | some s, some e =>
      let data := fetchWarningsForTimeRange upstream tz s e
      let warnings :=
        match data with
        | some d => parseTornadoWarnings tz (some d)
        | none => []
      ⟨200, true, none, some warnings.length⟩
  | _, _ =>
      ⟨400, false, some "Both start and end parameters are required (ISO8601 format)", none⟩

/- ## Spec-side auxiliary definitions -/

/-- Components re-read as UTC: any missing timezone designator is replaced
by the UTC designator (the spec's "treated as UTC"). -/
def forceUTC (c : DateTimeComps) : DateTimeComps :=
  { c with time :=
      match c.time with
      | none => none
      | some t => some { t with tzOffset := some 0 } }

/-- The instant denoted by parsed components when read as UTC. -/
def utcInstant (c : DateTimeComps) : Int := compsToMillis 0 (forceUTC c)

/-- `q` is the minimum of the list. -/
def isMinOf (q : ℚ) (l : List ℚ) : Prop := q ∈ l ∧ ∀ x ∈ l, q ≤ x

/-- `q` is the maximum of the list. -/
def isMaxOf (q : ℚ) (l : List ℚ) : Prop := q ∈ l ∧ ∀ x ∈ l, x ≤ q

/-- The complete plot-image URL template with all five identification
values interpolated. -/
def plotTemplate (p : Props) : String :=
  "https://mesonet.agron.iastate.edu/plotting/auto/plot/208/network:WFO::wfo:" ++
    jsShowS p.wfo ++ "::year:" ++ jsShowI p.year ++ "::phenomenav:" ++
    jsShowS p.phenomena ++ "::significancev:" ++ jsShowS p.significance ++
    "::etn:" ++ jsShowI p.eventid ++ "::opt:single::n:auto::_r:88::dpi:200.png"

/- ## Concrete fixtures for closed instances -/

def propsTW : Props := { emptyProps with ps := some "Tornado Warning" }

def featA : Feature := ⟨"A", some propsTW, none⟩

def featB : Feature := ⟨"B", some propsTW, none⟩

def featC : Feature := ⟨"C", some propsTW, none⟩

def docAB : FeedDoc := ⟨some [featA, featB]⟩

def docBC : FeedDoc := ⟨some [featB, featC]⟩

/-- An environment in which every network operation succeeds. -/
def envOK : WebhookEnv :=
  ⟨fun _ => Except.ok (some [some "RAW PRODUCT TEXT"]),
   fun _ => Except.ok 0,
   fun _ _ => Except.ok ()⟩

/-- A record carrying all five plot-identification properties, with an
empty (falsy) office code. -/
def propsEmptyWfo : Props :=
  { emptyProps with
    ps := some "Tornado Warning"
    wfo := some ""
    year := some 2024
    phenomena := some "TO"
    significance := some "W"
    eventid := some 42 }

def featEmptyWfo : Feature := ⟨"2024-KXXX-TO-W-0042", some propsEmptyWfo, none⟩

def docEmptyWfo : FeedDoc := ⟨some [featEmptyWfo]⟩

/-- A record carrying all five plot-identification properties, truthy. -/
def propsFull : Props :=
  { emptyProps with
    ps := some "Tornado Warning"
    wfo := some "KDMX"
    year := some 2024
    phenomena := some "TO"
    significance := some "W"
    eventid := some 42 }

def featFull : Feature := ⟨"2024-KDMX-TO-W-0042", some propsFull, none⟩

def itemA : MdItem := ⟨some "mdA", "https://www.spc.noaa.gov/md/A.html", "MD 100", none⟩

def itemB : MdItem := ⟨some "mdB", "https://www.spc.noaa.gov/md/B.html", "MD 101", none⟩

/-- A mesoscale environment in which only `itemA`'s dispatch throws. -/
def envMdFailA (it : MdItem) : Bool := mdIdentifier it != "mdA"

/-- An upstream feed that answers every window with a fixed document. -/
def upstreamConst (s e : String) : Option FeedDoc :=
  match s, e with
  | _, _ => some docAB

/-- A simple rectangular polygon: one ring, closed, extent `[0,2] × [0,1]`. -/
def rectRings : List (List Coord) := [[(0, 0), (2, 0), (2, 1), (0, 1), (0, 0)]]

def warningA : Warning := mkWarning 0 featA

/- ## Theorems -/

theorem foldl_min_le_init (l : List ℚ) : ∀ a : ℚ, l.foldl min a ≤ a := by
  induction l with
  | nil => intro a; simp
  | cons y ys ih =>
      intro a
      simp only [List.foldl_cons]
      exact le_trans (ih (min a y)) (min_le_left a y)

theorem foldl_min_le_mem (l : List ℚ) : ∀ (a x : ℚ), x ∈ l → l.foldl min a ≤ x := by
  induction l with
  | nil => intro a x hx; simp at hx
  | cons y ys ih =>
      intro a x hx
      simp only [List.foldl_cons]
      rcases List.mem_cons.mp hx with h | h
      · subst h
        exact le_trans (foldl_min_le_init ys (min a x)) (min_le_right a x)
      · exact ih (min a y) x h

theorem foldl_min_mem_or (l : List ℚ) : ∀ a : ℚ, l.foldl min a = a ∨ l.foldl min a ∈ l := by
  induction l with
  | nil => intro a; left; rfl
  | cons y ys ih =>
      intro a
      simp only [List.foldl_cons]
      rcases ih (min a y) with h | h
      · rcases min_choice a y with hm | hm
        · left; rw [h, hm]
        · right; rw [h, hm]; exact List.mem_cons_self y ys
      · right; exact List.mem_cons_of_mem y h

theorem foldl_max_ge_init (l : List ℚ) : ∀ a : ℚ, a ≤ l.foldl max a := by
  induction l with
  | nil => intro a; simp
  | cons y ys ih =>
      intro a
      simp only [List.foldl_cons]
      exact le_trans (le_max_left a y) (ih (max a y))

theorem foldl_max_ge_mem (l : List ℚ) : ∀ (a x : ℚ), x ∈ l → x ≤ l.foldl max a := by
  induction l with
  | nil => intro a x hx; simp at hx
  | cons y ys ih =>
      intro a x hx
      simp only [List.foldl_cons]
      rcases List.mem_cons.mp hx with h | h
      · subst h
        exact le_trans (le_max_right a x) (foldl_max_ge_init ys (max a x))
      · exact ih (max a y) x h

theorem foldl_max_mem_or (l : List ℚ) : ∀ a : ℚ, l.foldl max a = a ∨ l.foldl max a ∈ l := by
  induction l with
  | nil => intro a; left; rfl
  | cons y ys ih =>
      intro a
      simp only [List.foldl_cons]
      rcases ih (max a y) with h | h
      · rcases max_choice a y with hm | hm
        · left; rw [h, hm]
        · right; rw [h, hm]; exact List.mem_cons_self y ys
      · right; exact List.mem_cons_of_mem y h

theorem listMin_is_min (c : ℚ) (cs : List ℚ) : isMinOf (listMin (c :: cs)) (c :: cs) := by
  constructor
  · simp only [listMin]
    rcases foldl_min_mem_or cs c with h | h
    · rw [h]; exact List.mem_cons_self c cs
    · exact List.mem_cons_of_mem c h
  · intro x hx
    simp only [listMin]
    rcases List.mem_cons.mp hx with h | h
    · subst h; exact foldl_min_le_init cs x
    · exact foldl_min_le_mem cs c x h

theorem listMax_is_max (c : ℚ) (cs : List ℚ) : isMaxOf (listMax (c :: cs)) (c :: cs) := by
  constructor
  · simp only [listMax]
    rcases foldl_max_mem_or cs c with h | h
    · rw [h]; exact List.mem_cons_self c cs
    · exact List.mem_cons_of_mem c h
  · intro x hx
    simp only [listMax]
    rcases List.mem_cons.mp hx with h | h
    · subst h; exact foldl_max_ge_init cs x
    · exact foldl_max_ge_mem cs c x h

theorem bboxOf_spec (margin : ℚ) (coords : List Coord) (h : coords ≠ []) :
    ∃ b : BBox, bboxOf coords margin = some b ∧
      isMinOf (b.xmin + margin) (coords.map Prod.fst) ∧
      isMinOf (b.ymin + margin) (coords.map Prod.snd) ∧
      isMaxOf (b.xmax - margin) (coords.map Prod.fst) ∧
      isMaxOf (b.ymax - margin) (coords.map Prod.snd) := by
  cases coords with
  | nil => exact absurd rfl h
  | cons c cs =>
      refine ⟨_, rfl, ?_, ?_, ?_, ?_⟩
      · show isMinOf (listMin ((c :: cs).map Prod.fst) - margin + margin) _
        have e : listMin ((c :: cs).map Prod.fst) - margin + margin =
            listMin ((c :: cs).map Prod.fst) := by ring
        rw [e, List.map_cons]
        exact listMin_is_min c.1 (cs.map Prod.fst)
      · show isMinOf (listMin ((c :: cs).map Prod.snd) - margin + margin) _
        have e : listMin ((c :: cs).map Prod.snd) - margin + margin =
            listMin ((c :: cs).map Prod.snd) := by ring
        rw [e, List.map_cons]
        exact listMin_is_min c.2 (cs.map Prod.snd)
      · show isMaxOf (listMax ((c :: cs).map Prod.fst) + margin - margin) _
        have e : listMax ((c :: cs).map Prod.fst) + margin - margin =
            listMax ((c :: cs).map Prod.fst) := by ring
        rw [e, List.map_cons]
        exact listMax_is_max c.1 (cs.map Prod.fst)
      · show isMaxOf (listMax ((c :: cs).map Prod.snd) + margin - margin) _
        have e : listMax ((c :: cs).map Prod.snd) + margin - margin =
            listMax ((c :: cs).map Prod.snd) := by ring
        rw [e, List.map_cons]
        exact listMax_is_max c.2 (cs.map Prod.snd)

/-- Claim C5: for every record with (multi-)polygon geometry carrying at
least one coordinate, the computed bounding box is exactly the minimum and
maximum of the polygon's longitudes and latitudes, each of the four sides
expanded outward by the margin (0.2 degrees at the call site). -/
theorem C5_bounding_box :
    (∀ (margin : ℚ) (rings : List (List Coord)), rings.flatten ≠ [] →
      ∃ b : BBox,
        getBoundingBox (some (Geometry.polygon rings)) margin = some b ∧
        isMinOf (b.xmin + margin) (rings.flatten.map Prod.fst) ∧
        isMinOf (b.ymin + margin) (rings.flatten.map Prod.snd) ∧
        isMaxOf (b.xmax - margin) (rings.flatten.map Prod.fst) ∧
        isMaxOf (b.ymax - margin) (rings.flatten.map Prod.snd)) ∧
    (∀ (margin : ℚ) (polys : List (List (List Coord))), polys.flatten.flatten ≠ [] →
      ∃ b : BBox,
        getBoundingBox (some (Geometry.multiPolygon polys)) margin = some b ∧
        isMinOf (b.xmin + margin) (polys.flatten.flatten.map Prod.fst) ∧
        isMinOf (b.ymin + margin) (polys.flatten.flatten.map Prod.snd) ∧
        isMaxOf (b.xmax - margin) (polys.flatten.flatten.map Prod.fst) ∧
        isMaxOf (b.ymax - margin) (polys.flatten.flatten.map Prod.snd)) := by
  constructor
  · intro margin rings h
    exact bboxOf_spec margin rings.flatten h
  · intro margin polys h
    exact bboxOf_spec margin polys.flatten.flatten h

/-- Witness for C5 at the rectangle `[0,2] × [0,1]` with margin `0.2`:
the box is the exact extent expanded by the margin on all four sides. -/
theorem C5_bounding_box_witness :
    (∃ b : BBox,
      getBoundingBox (some (Geometry.polygon rectRings)) 0.2 = some b ∧
      isMinOf (b.xmin + 0.2) (rectRings.flatten.map Prod.fst) ∧
      isMinOf (b.ymin + 0.2) (rectRings.flatten.map Prod.snd) ∧
      isMaxOf (b.xmax - 0.2) (rectRings.flatten.map Prod.fst) ∧
      isMaxOf (b.ymax - 0.2) (rectRings.flatten.map Prod.snd)) ∧
    getBoundingBox (some (Geometry.polygon rectRings)) 0.2 =
      some ⟨0 - 0.2, 0 - 0.2, 2 + 0.2, 1 + 0.2⟩ :=
  ⟨C5_bounding_box.1 0.2 rectRings (by simp [rectRings]),
   by norm_num [getBoundingBox, bboxOf, rectRings, listMin, listMax]⟩

theorem isTornadoWarning_iff (f : Feature) :
    isTornadoWarning f = true ↔
      ∃ p, f.properties = some p ∧ p.ps = some "Tornado Warning" := by
  cases hf : f.properties with
  | none => simp [isTornadoWarning, hf]
  | some p => simp [isTornadoWarning, hf]

/-- Claim C7: the extractor keeps exactly the features whose phenomenon
label equals `"Tornado Warning"`; a feature without properties (or with a
different label) is skipped without error — dropping such features does not
change the output at all — and the output preserves the feed's order (its
identifier list is a sublist of the feed's identifier list). -/
theorem C7_filter_and_order :
    (∀ (tz : Int) (fs : List Feature) (w : Warning),
        w ∈ parseTornadoWarnings tz (some ⟨some fs⟩) ↔
          ∃ f, f ∈ fs ∧ (∃ p, f.properties = some p ∧ p.ps = some "Tornado Warning") ∧
            w = mkWarning tz f) ∧
    (∀ (tz : Int) (fs : List Feature),
        List.Sublist ((parseTornadoWarnings tz (some ⟨some fs⟩)).map (fun w => w.id))
          (fs.map (fun f => f.id))) ∧
    (∀ (tz : Int) (fs : List Feature),
        parseTornadoWarnings tz (some ⟨some fs⟩) =
          parseTornadoWarnings tz (some ⟨some (fs.filter (fun f => f.properties.isSome))⟩)) := by
  refine ⟨?_, ?_, ?_⟩
  · intro tz fs w
    simp only [parseTornadoWarnings, List.mem_map, List.mem_filter]
    constructor
    · rintro ⟨f, ⟨hf, hTW⟩, rfl⟩
      exact ⟨f, hf, (isTornadoWarning_iff f).mp hTW, rfl⟩
    · rintro ⟨f, hf, hP, rfl⟩
      exact ⟨f, ⟨hf, (isTornadoWarning_iff f).mpr hP⟩, rfl⟩
  · intro tz fs
    simp only [parseTornadoWarnings, List.map_map]
    have e : ((fun w : Warning => w.id) ∘ mkWarning tz) = (fun f : Feature => f.id) :=
      funext (fun f => rfl)
    rw [e]
    exact (List.filter_sublist fs).map (fun f => f.id)
  · intro tz fs
    simp only [parseTornadoWarnings]
    have e : fs.filter isTornadoWarning =
        (fs.filter (fun f => f.properties.isSome)).filter isTornadoWarning := by
      rw [List.filter_filter]
      refine (List.filter_congr ?_).symm
      intro f hf
      cases hp : f.properties with
      | none => simp [isTornadoWarning, hp]
      | some p => simp [isTornadoWarning, hp]
    rw [e]

/-- Claim C8: the webhook message body is the fixed header followed by at
most the first 1800 characters of the raw product text, with the `"..."`
truncation marker appended exactly when the text is longer than 1800
characters (and the text passed through whole when it is not longer). -/
theorem C8_truncation :
    ∀ (w : Warning) (t : String),
      composeContent w t =
        msgHeader w ++ jsSubstring0 t 1800 ++ (if 1800 < t.length then "..." else "") ∧
      (jsSubstring0 t 1800).length ≤ 1800 ∧
      (t.length ≤ 1800 → composeContent w t = msgHeader w ++ t) := by
  intro w t
  have hmain : composeContent w t =
      msgHeader w ++ jsSubstring0 t 1800 ++ (if 1800 < t.length then "..." else "") := by
    simp [composeContent, msgHeader, String.append_assoc]
  refine ⟨hmain, ?_, ?_⟩
  · have e : (jsSubstring0 t 1800).length = (t.data.take 1800).length := rfl
    rw [e, List.length_take]
    exact min_le_left _ _
  · intro h
    rw [hmain, if_neg (by omega)]
    have e1 : jsSubstring0 t 1800 = t := by
      simp only [jsSubstring0]
      rw [List.take_of_length_le h]
    rw [e1, String.append_empty]

/-- Witness for C8: a short text is passed through whole, with no marker. -/
theorem C8_truncation_witness :
    composeContent warningA "TEST PRODUCT" = msgHeader warningA ++ "TEST PRODUCT" :=
  (C8_truncation warningA "TEST PRODUCT").2.2 (by decide)

/-- Claim C4 fails on the code: a record whose five identification
properties are all present, but whose office code is the empty string
(falsy in JavaScript), yields no plot-image URL, refuting "a plot-image
URL is emitted if and only if all five identification properties are
present". -/
theorem C4_counterexample :
    ((parseTornadoWarnings 0 (some docEmptyWfo)).map (fun w => w.plotImageUrl)) = [none] ∧
    propsEmptyWfo.wfo.isSome = true ∧ propsEmptyWfo.year.isSome = true ∧
    propsEmptyWfo.phenomena.isSome = true ∧ propsEmptyWfo.significance.isSome = true ∧
    propsEmptyWfo.eventid.isSome = true := by
  decide

/-- Claim C4 amended: the plot-image URL is emitted if and only if all five
identification properties are present with truthy values (a present but
empty office/phenomenon/significance string, or a zero year/event number,
suppresses it like an absent one); when emitted, the URL is always the
complete five-value template — never a partial or broken URL. -/
theorem C4_plot_image_url :
    ∀ (tz : Int) (f : Feature),
      ((mkWarning tz f).plotImageUrl.isSome = true ↔
        truthyS (f.properties.getD emptyProps).wfo = true ∧
        truthyI (f.properties.getD emptyProps).year = true ∧
        truthyS (f.properties.getD emptyProps).phenomena = true ∧
        truthyS (f.properties.getD emptyProps).significance = true ∧
        truthyI (f.properties.getD emptyProps).eventid = true) ∧
      ((mkWarning tz f).plotImageUrl = none ∨
        (mkWarning tz f).plotImageUrl = some (plotTemplate (f.properties.getD emptyProps))) := by
  intro tz f
  have e : (mkWarning tz f).plotImageUrl = plotImageUrlOf (f.properties.getD emptyProps) := rfl
  constructor
  · rw [e]
    simp only [plotImageUrlOf]
    split
    · rename_i hcond
      simp only [Option.isSome_some, true_iff]
      simp only [Bool.and_eq_true] at hcond
      exact ⟨hcond.1.1.1.1, hcond.1.1.1.2, hcond.1.1.2, hcond.1.2, hcond.2⟩
    · rename_i hcond
      simp only [Option.isSome_none, Bool.false_eq_true, false_iff]
      intro hc
      exact hcond (by simp [Bool.and_eq_true, hc.1, hc.2.1, hc.2.2.1, hc.2.2.2.1, hc.2.2.2.2])
  · rw [e]
    simp only [plotImageUrlOf]
    split
    · right; rfl
    · left; rfl

theorem runDispatchLoop_eq_filter (env : WebhookEnv) :
    ∀ ws : List Warning,
      runDispatchLoop env ws =
        (ws.filter (dispatchOK env), ws.filter (fun w => !(dispatchOK env w))) := by
  intro ws
  induction ws with
  | nil => rfl
  | cons x xs ih =>
      simp only [runDispatchLoop, ih, List.filter_cons]
      cases hd : dispatchWarning env x with
      | ok u => simp [dispatchOK, hd]
      | error msg => simp [dispatchOK, hd]

theorem simulateTally_eq (env : WebhookEnv) :
    ∀ ws : List Warning,
      simulateTally env ws =
        ((ws.filter (dispatchOK env)).length,
          (ws.filter (fun w => !(dispatchOK env w))).length) := by
  intro ws
  induction ws with
  | nil => rfl
  | cons x xs ih =>
      simp only [simulateTally, ih, List.filter_cons]
      cases hd : dispatchWarning env x with
      | ok u => simp [dispatchOK, hd]
      | error msg => simp [dispatchOK, hd]

theorem length_filter_add_length_not {α : Type} (p : α → Bool) (l : List α) :
    (l.filter p).length + (l.filter (fun a => !(p a))).length = l.length := by
  induction l with
  | nil => rfl
  | cons x xs ih =>
      simp only [List.filter_cons]
      cases hp : p x
      · simp only [Bool.not_false, if_true, if_false]
        simp [List.length_cons]
        omega
      · simp only [Bool.not_true, if_true, if_false]
        simp [List.length_cons]
        omega

theorem contains_true_of_mem {a : String} {l : List String} (h : a ∈ l) :
    l.contains a = true := by
  simpa using h

theorem mem_of_contains_true {a : String} {l : List String} (h : l.contains a = true) :
    a ∈ l := by
  simpa using h

theorem contains_cons_of_contains {a b : String} {l : List String}
    (h : l.contains a = true) : (b :: l).contains a = true :=
  contains_true_of_mem (List.mem_cons_of_mem b (mem_of_contains_true h))

theorem md_fail_step (env : MdItem → Bool) (it : MdItem) (rest : List MdItem)
    (seen : List String) (h1 : seen.contains (mdIdentifier it) = false)
    (h2 : env it = false) :
    monitorMesoscaleDiscussions env (it :: rest) seen =
      (mdIdentifier it :: seen, [], false) := by
  simp only [monitorMesoscaleDiscussions]
  rw [if_neg (by rw [h1]; exact Bool.false_ne_true),
    if_neg (by rw [h2]; exact Bool.false_ne_true)]

theorem md_skip_step (env : MdItem → Bool) (it : MdItem) (rest : List MdItem)
    (seen : List String) (h1 : seen.contains (mdIdentifier it) = true) :
    monitorMesoscaleDiscussions env (it :: rest) seen =
      monitorMesoscaleDiscussions env rest seen := by
  simp only [monitorMesoscaleDiscussions]
  rw [if_pos h1]

theorem md_ok_step (env : MdItem → Bool) (it : MdItem) (rest : List MdItem)
    (seen : List String) (h1 : seen.contains (mdIdentifier it) = false)
    (h2 : env it = true) :
    monitorMesoscaleDiscussions env (it :: rest) seen =
      ((monitorMesoscaleDiscussions env rest (mdIdentifier it :: seen)).1,
       mdIdentifier it ::
         (monitorMesoscaleDiscussions env rest (mdIdentifier it :: seen)).2.1,
       (monitorMesoscaleDiscussions env rest (mdIdentifier it :: seen)).2.2) := by
  simp only [monitorMesoscaleDiscussions]
  rw [if_neg (by rw [h1]; exact Bool.false_ne_true), if_pos h2]

theorem md_seen_not_sent (env : MdItem → Bool) :
    ∀ (items : List MdItem) (seen : List String) (g : String),
      seen.contains g = true →
      g ∉ (monitorMesoscaleDiscussions env items seen).2.1 := by
  intro items
  induction items with
  | nil => intro seen g h hmem; simp [monitorMesoscaleDiscussions] at hmem
  | cons it rest ih =>
      intro seen g h hmem
      cases h1 : seen.contains (mdIdentifier it) with
      | true =>
          rw [md_skip_step env it rest seen h1] at hmem
          exact ih seen g h hmem
      | false =>
          cases h2 : env it with
          | true =>
              rw [md_ok_step env it rest seen h1 h2] at hmem
              rcases List.mem_cons.mp hmem with hg | hg
              · rw [hg] at h
                rw [h] at h1
                exact Bool.noConfusion h1
              · exact ih (mdIdentifier it :: seen) g (contains_cons_of_contains h) hg
          | false =>
              rw [md_fail_step env it rest seen h1 h2] at hmem
              simp at hmem

theorem md_seen_monotone (env : MdItem → Bool) :
    ∀ (items : List MdItem) (seen : List String) (g : String),
      seen.contains g = true →
      (monitorMesoscaleDiscussions env items seen).1.contains g = true := by
  intro items
  induction items with
  | nil => intro seen g h; exact h
  | cons it rest ih =>
      intro seen g h
      cases h1 : seen.contains (mdIdentifier it) with
      | true =>
          rw [md_skip_step env it rest seen h1]
          exact ih seen g h
      | false =>
          cases h2 : env it with
          | true =>
              rw [md_ok_step env it rest seen h1 h2]
              exact ih (mdIdentifier it :: seen) g (contains_cons_of_contains h)
          | false =>
              rw [md_fail_step env it rest seen h1 h2]
              exact contains_cons_of_contains h

theorem md_abort_prefix (env : MdItem → Bool) :
    ∀ (xs ys : List MdItem) (seen : List String),
      (monitorMesoscaleDiscussions env xs seen).2.2 = false →
      monitorMesoscaleDiscussions env (xs ++ ys) seen =
        monitorMesoscaleDiscussions env xs seen := by
  intro xs
  induction xs with
  | nil => intro ys seen h; simp [monitorMesoscaleDiscussions] at h
  | cons it rest ih =>
      intro ys seen h
      cases h1 : seen.contains (mdIdentifier it) with
      | true =>
          rw [md_skip_step env it rest seen h1] at h
          rw [List.cons_append, md_skip_step env it (rest ++ ys) seen h1,
            md_skip_step env it rest seen h1]
          exact ih ys seen h
      | false =>
          cases h2 : env it with
          | true =>
              rw [md_ok_step env it rest seen h1 h2] at h
              rw [List.cons_append, md_ok_step env it (rest ++ ys) seen h1 h2,
                md_ok_step env it rest seen h1 h2,
                ih ys (mdIdentifier it :: seen) h]
          | false =>
              rw [List.cons_append, md_fail_step env it (rest ++ ys) seen h1 h2,
                md_fail_step env it rest seen h1 h2]

/-- Claim C6 fails on the code: an unparseable `start` timestamp does not
surface as an HTTP error response — the endpoint answers 200 with
`success: true` and an empty warning list, because
`fetchWarningsForTimeRange` catches the timestamp error internally and
returns no data. -/
theorem C6_counterexample :
    rangeEndpoint upstreamConst 0 (some "not a timestamp") (some "2024-01-01") =
      ⟨200, true, none, some 0⟩ := by
  decide

/-- Claim C6 amended: when a start or end timestamp of the range query
cannot be parsed, the `InvalidTimestamp` error is swallowed inside
`fetchWarningsForTimeRange` (whose `catch` returns no data), and the
endpoint responds 200 `success` with zero warnings — the invalid timestamp
is treated exactly like empty data; the endpoint's 500 error path never
sees it. -/
theorem C6_invalid_timestamp_swallowed :
    ∀ (upstream : String → String → Option FeedDoc) (tz : Int) (s e : String),
      validateAndFormatTimestamp tz s = none ∨ validateAndFormatTimestamp tz e = none →
      rangeEndpoint upstream tz (some s) (some e) = ⟨200, true, none, some 0⟩ := by
  intro upstream tz s e h
  rcases h with h | h
  · simp [rangeEndpoint, fetchWarningsForTimeRange, h]
  · cases hs : validateAndFormatTimestamp tz s with
    | none => simp [rangeEndpoint, fetchWarningsForTimeRange, hs]
    | some sv => simp [rangeEndpoint, fetchWarningsForTimeRange, hs, h]

/-- Witness for C6 at a valid start and an unparseable end. -/
theorem C6_witness :
    rangeEndpoint upstreamConst 0 (some "2024-01-02") (some "bogus") =
      ⟨200, true, none, some 0⟩ :=
  C6_invalid_timestamp_swallowed upstreamConst 0 "2024-01-02" "bogus" (Or.inr (by decide))

/-- Claim C1: in a tornado-warning cycle whose fetch succeeded, a warning
is handed to the dispatch loop if and only if it is in the current
extraction and its identifier is not in the previous cycle's tracked
list; afterwards the tracked list is the current extraction, wholesale.
The last conjunct is the claim's concrete scenario: previous active set
`{A, B}`, current active set `{B, C}` — only `C` is dispatched, and `A`'s
disappearance produces no dispatch. -/
theorem C1_dedup_cycle :
    (∀ (env : WebhookEnv) (tz : Int) (d : FeedDoc) (now : String)
        (st : MonitorState) (w : Warning),
        (w ∈ (monitorTornadoWarnings env tz (some d) now st).2.1 ∨
          w ∈ (monitorTornadoWarnings env tz (some d) now st).2.2) ↔
          w ∈ parseTornadoWarnings tz (some d) ∧
            (st.tornadoWarnings.map (fun x => x.id)).contains w.id = false) ∧
    (∀ (env : WebhookEnv) (tz : Int) (d : FeedDoc) (now : String) (st : MonitorState),
        (monitorTornadoWarnings env tz (some d) now st).1.tornadoWarnings =
          parseTornadoWarnings tz (some d)) ∧
    (((monitorTornadoWarnings envOK 0 (some docBC) "t2"
          (monitorTornadoWarnings envOK 0 (some docAB) "t1" ⟨[], none⟩).1).2.1 ++
        (monitorTornadoWarnings envOK 0 (some docBC) "t2"
          (monitorTornadoWarnings envOK 0 (some docAB) "t1" ⟨[], none⟩).1).2.2).map
        (fun w => w.id) = ["C"] ∧
      (monitorTornadoWarnings envOK 0 (some docAB) "t1"
          ⟨[], none⟩).1.tornadoWarnings.map (fun w => w.id) = ["A", "B"]) := by
  refine ⟨?_, ?_, by decide⟩
  · intro env tz d now st w
    simp only [monitorTornadoWarnings]
    rw [runDispatchLoop_eq_filter]
    simp only [List.mem_filter]
    constructor
    · rintro (h | h)
      · exact ⟨h.1.1, by simpa using h.1.2⟩
      · exact ⟨h.1.1, by simpa using h.1.2⟩
    · rintro ⟨hw, hc⟩
      by_cases hok : dispatchOK env w = true
      · left; exact ⟨⟨hw, by simpa using hc⟩, hok⟩
      · right
        refine ⟨⟨hw, by simpa using hc⟩, ?_⟩
        simp only [Bool.not_eq_true']
        exact Bool.not_eq_true (dispatchOK env w) ▸ (by simpa using hok)
  · intro env tz d now st
    rfl

/-- Claim C10: after a cycle whose fetch succeeded the tracked list equals
the extraction regardless of dispatch outcomes (in particular a warning
whose dispatch failed is still recorded); a warning whose identifier was
already in the previous extraction is never dispatched in the following
cycle; and a failed fetch leaves the whole state — tracked list, last
update and dedup baseline — untouched. -/
theorem C10_tracked_state :
    (∀ (env : WebhookEnv) (tz : Int) (d : FeedDoc) (now : String) (st : MonitorState),
        (monitorTornadoWarnings env tz (some d) now st).1 =
          ⟨parseTornadoWarnings tz (some d), some now⟩) ∧
    (∀ (env : WebhookEnv) (tz : Int) (d : FeedDoc) (now : String)
        (st : MonitorState) (w : Warning),
        w ∈ (monitorTornadoWarnings env tz (some d) now st).2.2 →
          w ∈ (monitorTornadoWarnings env tz (some d) now st).1.tornadoWarnings) ∧
    (∀ (env1 env2 : WebhookEnv) (tz : Int) (d1 d2 : FeedDoc) (now1 now2 : String)
        (st : MonitorState) (w : Warning),
        w.id ∈ (parseTornadoWarnings tz (some d1)).map (fun x => x.id) →
          w ∉ (monitorTornadoWarnings env2 tz (some d2) now2
                (monitorTornadoWarnings env1 tz (some d1) now1 st).1).2.1 ∧
          w ∉ (monitorTornadoWarnings env2 tz (some d2) now2
                (monitorTornadoWarnings env1 tz (some d1) now1 st).1).2.2) ∧
    (∀ (env : WebhookEnv) (tz : Int) (now : String) (st : MonitorState),
        monitorTornadoWarnings env tz none now st = (st, [], [])) := by
  refine ⟨fun env tz d now st => rfl, ?_, ?_, fun env tz now st => rfl⟩
  · intro env tz d now st w h
    simp only [monitorTornadoWarnings, runDispatchLoop_eq_filter,
      List.mem_filter] at h ⊢
    exact h.1.1
  · intro env1 env2 tz d1 d2 now1 now2 st w hid
    constructor
    · intro hmem
      have h2 := hmem
      simp only [monitorTornadoWarnings, runDispatchLoop_eq_filter,
        List.mem_filter] at h2
      rw [contains_true_of_mem hid] at h2
      simp at h2
    · intro hmem
      have h2 := hmem
      simp only [monitorTornadoWarnings, runDispatchLoop_eq_filter,
        List.mem_filter] at h2
      rw [contains_true_of_mem hid] at h2
      simp at h2

/-- Witness for C10: warning `B` is active in both cycles `{A,B}` and
`{B,C}`, so the second cycle dispatches nothing for it. -/
theorem C10_witness :
    mkWarning 0 featB ∉ (monitorTornadoWarnings envOK 0 (some docBC) "t2"
        (monitorTornadoWarnings envOK 0 (some docAB) "t1" ⟨[], none⟩).1).2.1 ∧
    mkWarning 0 featB ∉ (monitorTornadoWarnings envOK 0 (some docBC) "t2"
        (monitorTornadoWarnings envOK 0 (some docAB) "t1" ⟨[], none⟩).1).2.2 :=
  C10_tracked_state.2.2.1 envOK envOK 0 docAB docBC "t1" "t2" ⟨[], none⟩
    (mkWarning 0 featB) (by decide)

/-- Claim C2 fails on the code for the mesoscale-discussion class: in a
cycle over two unseen items where only `itemA`'s dispatch throws, the
single cycle-wide error handler ends the loop — `itemB` is neither
dispatched nor marked seen, although its own dispatch (`envMdFailA itemB`)
would have succeeded, and no sent/failed tally is kept. -/
theorem C2_counterexample :
    monitorMesoscaleDiscussions envMdFailA [itemA, itemB] [] = (["mdA"], [], false) ∧
    envMdFailA itemB = true ∧
    "mdB" ∉ (monitorMesoscaleDiscussions envMdFailA [itemA, itemB] []).1 := by
  decide

/-- Claim C2 amended: per-event failure isolation holds for the
tornado-warning class only.  The tornado dispatch loop (shared by the
scheduled cycle and the simulate endpoint) attempts every warning
regardless of sibling failures, whatever the failure point (text fetch,
image fetch or POST, all folded into `dispatchWarning`), partitioning the
batch into sent and failed; the simulate endpoint's tally counts exactly
that partition.  In the mesoscale cycle, one item's dispatch failure ends
the processing of the remaining items for that cycle. -/
theorem C2_partial_failure :
    (∀ (env : WebhookEnv) (ws : List Warning),
        runDispatchLoop env ws =
          (ws.filter (dispatchOK env), ws.filter (fun w => !(dispatchOK env w)))) ∧
    (∀ (env : WebhookEnv) (ws : List Warning),
        simulateTally env ws =
          ((ws.filter (dispatchOK env)).length,
            (ws.filter (fun w => !(dispatchOK env w))).length) ∧
        (simulateTally env ws).1 + (simulateTally env ws).2 = ws.length) ∧
    (∀ (env : MdItem → Bool) (it : MdItem) (rest : List MdItem) (seen : List String),
        seen.contains (mdIdentifier it) = false → env it = false →
          monitorMesoscaleDiscussions env (it :: rest) seen =
            (mdIdentifier it :: seen, [], false)) :=
  ⟨runDispatchLoop_eq_filter,
   fun env ws =>
     ⟨simulateTally_eq env ws,
      by rw [simulateTally_eq env ws]; exact length_filter_add_length_not _ ws⟩,
   md_fail_step⟩

/-- Witness for C2's mesoscale conjunct at a concrete failing item. -/
theorem C2_witness :
    monitorMesoscaleDiscussions envMdFailA [itemA, itemB] ["other"] =
      ("mdA" :: ["other"], [], false) :=
  C2_partial_failure.2.2 envMdFailA itemA [itemB] ["other"] (by decide) (by decide)

/-- Claim C9: in the mesoscale cycle an item's identifier enters the
cumulative seen-set right after the membership test and before its
dispatch is attempted — so a failing item ends the cycle with its
identifier recorded and nothing sent; an identifier already in the
seen-set is never dispatched by any later run, and the seen-set only
grows; and a cycle that aborted ignores all items after the aborting
one. -/
theorem C9_md_seen_before_dispatch :
    (∀ (env : MdItem → Bool) (it : MdItem) (rest : List MdItem) (seen : List String),
        seen.contains (mdIdentifier it) = false → env it = false →
          monitorMesoscaleDiscussions env (it :: rest) seen =
            (mdIdentifier it :: seen, [], false)) ∧
    (∀ (env : MdItem → Bool) (items : List MdItem) (seen : List String) (g : String),
        seen.contains g = true →
          g ∉ (monitorMesoscaleDiscussions env items seen).2.1) ∧
    (∀ (env : MdItem → Bool) (items : List MdItem) (seen : List String) (g : String),
        seen.contains g = true →
          (monitorMesoscaleDiscussions env items seen).1.contains g = true) ∧
    (∀ (env : MdItem → Bool) (xs ys : List MdItem) (seen : List String),
        (monitorMesoscaleDiscussions env xs seen).2.2 = false →
          monitorMesoscaleDiscussions env (xs ++ ys) seen =
            monitorMesoscaleDiscussions env xs seen) :=
  ⟨md_fail_step, md_seen_not_sent, md_seen_monotone, md_abort_prefix⟩

/-- Witness for C9: a failing first item is recorded as seen, nothing is
sent, the cycle aborts, and its identifier is never re-sent from the
resulting seen-set. -/
theorem C9_witness :
    monitorMesoscaleDiscussions envMdFailA [itemA] [] = (["mdA"], [], false) ∧
    "mdA" ∉ (monitorMesoscaleDiscussions envMdFailA [itemB, itemA] ["mdA"]).2.1 :=
  ⟨C9_md_seen_before_dispatch.1 envMdFailA itemA [] [] (by decide) (by decide),
   C9_md_seen_before_dispatch.2.1 envMdFailA [itemB, itemA] ["mdA"] "mdA" (by decide)⟩

theorem takeDigitsAux_append (zs : List Char) :
    ∀ (n acc : Nat) (cs : List Char) (v : Nat) (r : List Char),
      takeDigitsAux n acc cs = some (v, r) →
      takeDigitsAux n acc (cs ++ zs) = some (v, r ++ zs) := by
  intro n
  induction n with
  | zero =>
      intro acc cs v r h
      simp only [takeDigitsAux, Option.some.injEq, Prod.mk.injEq] at h ⊢
      exact ⟨h.1, by rw [h.2]⟩
  | succ n ih =>
      intro acc cs v r h
      cases cs with
      | nil => simp [takeDigitsAux] at h
      | cons c cs0 =>
          simp only [List.cons_append, takeDigitsAux] at h ⊢
          by_cases hc : c.isDigit = true
          · rw [if_pos hc] at h ⊢
            exact ih _ _ _ _ h
          · rw [if_neg hc] at h
            exact Option.noConfusion h

theorem takeDigits_append (zs : List Char) (n : Nat) (cs : List Char) (v : Nat)
    (r : List Char) (h : takeDigits n cs = some (v, r)) :
    takeDigits n (cs ++ zs) = some (v, r ++ zs) :=
  takeDigitsAux_append zs n 0 cs v r h

theorem parseMonthDay_appendZ (cs : List Char) (mo d : Nat) (r : List Char)
    (h : parseMonthDay cs = some (mo, d, r)) :
    parseMonthDay (cs ++ ['Z']) = some (mo, d, r ++ ['Z']) := by
  cases cs with
  | nil =>
      simp only [parseMonthDay, Option.some.injEq, Prod.mk.injEq] at h
      obtain ⟨h1, h2, h3⟩ := h
      subst h1; subst h2; subst h3
      rfl
  | cons c cs0 =>
      simp only [List.cons_append, parseMonthDay] at h ⊢
      by_cases hc : c = '-'
      · rw [if_pos hc] at h ⊢
        cases h4 : takeDigits 2 cs0 with
        | none => rw [h4] at h; exact Option.noConfusion h
        | some p =>
            obtain ⟨mo', cs1⟩ := p
            rw [h4] at h
            rw [takeDigits_append ['Z'] 2 cs0 mo' cs1 h4]
            cases cs1 with
            | nil =>
                simp only [Option.some.injEq, Prod.mk.injEq] at h
                obtain ⟨h1, h2, h3⟩ := h
                subst h1; subst h2; subst h3
                rfl
            | cons c1 cs2 =>
                simp only [List.cons_append] at h ⊢
                by_cases hc1 : c1 = '-'
                · rw [if_pos hc1] at h ⊢
                  cases h5 : takeDigits 2 cs2 with
                  | none => rw [h5] at h; exact Option.noConfusion h
                  | some q =>
                      obtain ⟨d', cs3⟩ := q
                      rw [h5] at h
                      rw [takeDigits_append ['Z'] 2 cs2 d' cs3 h5]
                      simp only [Option.some.injEq, Prod.mk.injEq] at h ⊢
                      obtain ⟨h1, h2, h3⟩ := h
                      exact ⟨h1, h2, by rw [h3]⟩
                · rw [if_neg hc1] at h ⊢
                  simp only [Option.some.injEq, Prod.mk.injEq] at h ⊢
                  obtain ⟨h1, h2, h3⟩ := h
                  exact ⟨h1, h2, by rw [← h3, List.cons_append]⟩
      · rw [if_neg hc] at h ⊢
        simp only [Option.some.injEq, Prod.mk.injEq] at h ⊢
        obtain ⟨h1, h2, h3⟩ := h
        exact ⟨h1, h2, by rw [← h3, List.cons_append]⟩

theorem parseSecFrac_appendZ (cs : List Char) (s f : Nat) (r : List Char)
    (h : parseSecFrac cs = some (s, f, r)) :
    parseSecFrac (cs ++ ['Z']) = some (s, f, r ++ ['Z']) := by
  cases cs with
  | nil =>
      simp only [parseSecFrac, Option.some.injEq, Prod.mk.injEq] at h
      obtain ⟨h1, h2, h3⟩ := h
      subst h1; subst h2; subst h3
      rfl
  | cons c cs0 =>
      simp only [List.cons_append, parseSecFrac] at h ⊢
      by_cases hc : c = ':'
      · rw [if_pos hc] at h ⊢
        cases h4 : takeDigits 2 cs0 with
        | none => rw [h4] at h; exact Option.noConfusion h
        | some p =>
            obtain ⟨s', cs1⟩ := p
            rw [h4] at h
            rw [takeDigits_append ['Z'] 2 cs0 s' cs1 h4]
            cases cs1 with
            | nil =>
                simp only [Option.some.injEq, Prod.mk.injEq] at h
                obtain ⟨h1, h2, h3⟩ := h
                subst h1; subst h2; subst h3
                rfl
            | cons c1 cs2 =>
                simp only [List.cons_append] at h ⊢
                by_cases hc1 : c1 = '.'
                · rw [if_pos hc1] at h ⊢
                  cases h5 : takeDigits 3 cs2 with
                  | none => rw [h5] at h; exact Option.noConfusion h
                  | some q =>
                      obtain ⟨f', cs3⟩ := q
                      rw [h5] at h
                      rw [takeDigits_append ['Z'] 3 cs2 f' cs3 h5]
                      simp only [Option.some.injEq, Prod.mk.injEq] at h ⊢
                      obtain ⟨h1, h2, h3⟩ := h
                      exact ⟨h1, h2, by rw [h3]⟩
                · rw [if_neg hc1] at h ⊢
                  simp only [Option.some.injEq, Prod.mk.injEq] at h ⊢
                  obtain ⟨h1, h2, h3⟩ := h
                  exact ⟨h1, h2, by rw [← h3, List.cons_append]⟩
      · rw [if_neg hc] at h ⊢
        simp only [Option.some.injEq, Prod.mk.injEq] at h ⊢
        obtain ⟨h1, h2, h3⟩ := h
        exact ⟨h1, h2, by rw [← h3, List.cons_append]⟩

theorem parseOffsetNum_append (zs : List Char) (cs0 : List Char) (n : Nat)
    (r : List Char) (h : parseOffsetNum cs0 = some (n, r)) :
    parseOffsetNum (cs0 ++ zs) = some (n, r ++ zs) := by
  simp only [parseOffsetNum] at h ⊢
  cases h4 : takeDigits 2 cs0 with
  | none => rw [h4] at h; exact Option.noConfusion h
  | some p =>
      obtain ⟨hh, cs1⟩ := p
      rw [h4] at h
      rw [takeDigits_append zs 2 cs0 hh cs1 h4]
      cases cs1 with
      | nil => exact Option.noConfusion h
      | cons c1 cs2 =>
          simp only [List.cons_append] at h ⊢
          by_cases hc1 : c1 = ':'
          · rw [if_pos hc1] at h ⊢
            cases h5 : takeDigits 2 cs2 with
            | none => rw [h5] at h; exact Option.noConfusion h
            | some q =>
                obtain ⟨mm, cs3⟩ := q
                rw [h5] at h
                rw [takeDigits_append zs 2 cs2 mm cs3 h5]
                dsimp only at h ⊢
                by_cases hb : (hh ≤ 23 && mm ≤ 59) = true
                · rw [if_pos hb] at h ⊢
                  simp only [Option.some.injEq, Prod.mk.injEq] at h ⊢
                  obtain ⟨h1, h3⟩ := h
                  exact ⟨h1, by rw [h3]⟩
                · rw [if_neg hb] at h
                  exact Option.noConfusion h
          · rw [if_neg hc1] at h
            exact Option.noConfusion h

theorem parseTZD_none_rest (cs : List Char) (r : List Char)
    (h : parseTZD cs = some (none, r)) : r = cs := by
  cases cs with
  | nil =>
      simp only [parseTZD, Option.some.injEq, Prod.mk.injEq] at h
      rw [← h.2]
  | cons c cs0 =>
      simp only [parseTZD] at h
      by_cases hz : c = 'Z'
      · rw [if_pos hz] at h
        simp at h
      · rw [if_neg hz] at h
        by_cases hp : c = '+'
        · rw [if_pos hp] at h
          cases h4 : parseOffsetNum cs0 with
          | none => rw [h4] at h; exact Option.noConfusion h
          | some p => rw [h4] at h; simp at h
        · rw [if_neg hp] at h
          by_cases hm : c = '-'
          · rw [if_pos hm] at h
            cases h4 : parseOffsetNum cs0 with
            | none => rw [h4] at h; exact Option.noConfusion h
            | some p => rw [h4] at h; simp at h
          · rw [if_neg hm] at h
            simp only [Option.some.injEq, Prod.mk.injEq] at h
            rw [← h.2]

theorem parseTZD_appendZ_some (cs : List Char) (off : Int)
    (h : parseTZD cs = some (some off, [])) :
    parseTZD (cs ++ ['Z']) = some (some off, ['Z']) := by
  cases cs with
  | nil => simp [parseTZD] at h
  | cons c cs0 =>
      simp only [List.cons_append, parseTZD] at h ⊢
      by_cases hz : c = 'Z'
      · rw [if_pos hz] at h ⊢
        simp only [Option.some.injEq, Prod.mk.injEq] at h ⊢
        obtain ⟨h1, h2⟩ := h
        subst h2
        exact ⟨h1, rfl⟩
      · rw [if_neg hz] at h ⊢
        by_cases hp : c = '+'
        · rw [if_pos hp] at h ⊢
          cases h4 : parseOffsetNum cs0 with
          | none => rw [h4] at h; exact Option.noConfusion h
          | some p =>
              obtain ⟨nn, cs3⟩ := p
              rw [h4] at h
              rw [parseOffsetNum_append ['Z'] cs0 nn cs3 h4]
              simp only [Option.some.injEq, Prod.mk.injEq] at h ⊢
              obtain ⟨h1, h2⟩ := h
              subst h2
              exact ⟨h1, rfl⟩
        · rw [if_neg hp] at h ⊢
          by_cases hm : c = '-'
          · rw [if_pos hm] at h ⊢
            cases h4 : parseOffsetNum cs0 with
            | none => rw [h4] at h; exact Option.noConfusion h
            | some p =>
                obtain ⟨nn, cs3⟩ := p
                rw [h4] at h
                rw [parseOffsetNum_append ['Z'] cs0 nn cs3 h4]
                simp only [Option.some.injEq, Prod.mk.injEq] at h ⊢
                obtain ⟨h1, h2⟩ := h
                subst h2
                exact ⟨h1, rfl⟩
          · rw [if_neg hm] at h
            simp at h

theorem parseTimePart_appendZ_none (cs : List Char) (t : TimeComps)
    (h : parseTimePart cs = some (t, [])) (ht : t.tzOffset = none) :
    parseTimePart (cs ++ ['Z']) = some ({ t with tzOffset := some 0 }, []) := by
  cases cs with
  | nil => simp [parseTimePart] at h
  | cons c cs0 =>
      simp only [List.cons_append, parseTimePart] at h ⊢
      by_cases hc : c = 'T'
      case neg => rw [if_neg hc] at h; exact Option.noConfusion h
      case pos =>
      rw [if_pos hc] at h ⊢
      cases h4 : takeDigits 2 cs0 with
      | none => rw [h4] at h; exact Option.noConfusion h
      | some p =>
          obtain ⟨hh, cs1⟩ := p
          rw [h4] at h
          rw [takeDigits_append ['Z'] 2 cs0 hh cs1 h4]
          cases cs1 with
          | nil => exact Option.noConfusion h
          | cons c1 cs2 =>
              simp only [List.cons_append] at h ⊢
              by_cases hc1 : c1 = ':'
              case neg => rw [if_neg hc1] at h; exact Option.noConfusion h
              case pos =>
              rw [if_pos hc1] at h ⊢
              cases h5 : takeDigits 2 cs2 with
              | none => rw [h5] at h; exact Option.noConfusion h
              | some q =>
                  obtain ⟨mi, cs3⟩ := q
                  rw [h5] at h
                  rw [takeDigits_append ['Z'] 2 cs2 mi cs3 h5]
                  dsimp only at h ⊢
                  cases h6 : parseSecFrac cs3 with
                  | none => rw [h6] at h; exact Option.noConfusion h
                  | some u =>
                      obtain ⟨ss, ff, cs4⟩ := u
                      rw [h6] at h
                      rw [parseSecFrac_appendZ cs3 ss ff cs4 h6]
                      dsimp only at h ⊢
                      cases h7 : parseTZD cs4 with
                      | none => rw [h7] at h; exact Option.noConfusion h
                      | some v =>
                          obtain ⟨tzo, cs5⟩ := v
                          rw [h7] at h
                          dsimp only at h
                          simp only [Option.some.injEq, Prod.mk.injEq] at h
                          obtain ⟨h1, h2⟩ := h
                          subst h2
                          subst h1
                          have htz : tzo = none := ht
                          subst htz
                          have hcs4 : ([] : List Char) = cs4 :=
                            parseTZD_none_rest cs4 [] h7
                          rw [← hcs4]
                          simp [parseTZD]
  
theorem parseTimePart_appendZ_some (cs : List Char) (t : TimeComps) (off : Int)
    (h : parseTimePart cs = some (t, [])) (ht : t.tzOffset = some off) :
    parseTimePart (cs ++ ['Z']) = some (t, ['Z']) := by
  cases cs with
  | nil => simp [parseTimePart] at h
  | cons c cs0 =>
      simp only [List.cons_append, parseTimePart] at h ⊢
      by_cases hc : c = 'T'
      case neg => rw [if_neg hc] at h; exact Option.noConfusion h
      case pos =>
      rw [if_pos hc] at h ⊢
      cases h4 : takeDigits 2 cs0 with
      | none => rw [h4] at h; exact Option.noConfusion h
      | some p =>
          obtain ⟨hh, cs1⟩ := p
          rw [h4] at h
          rw [takeDigits_append ['Z'] 2 cs0 hh cs1 h4]
          cases cs1 with
          | nil => exact Option.noConfusion h
          | cons c1 cs2 =>
              simp only [List.cons_append] at h ⊢
              by_cases hc1 : c1 = ':'
              case neg => rw [if_neg hc1] at h; exact Option.noConfusion h
              case pos =>
              rw [if_pos hc1] at h ⊢
              cases h5 : takeDigits 2 cs2 with
              | none => rw [h5] at h; exact Option.noConfusion h
              | some q =>
                  obtain ⟨mi, cs3⟩ := q
                  rw [h5] at h
                  rw [takeDigits_append ['Z'] 2 cs2 mi cs3 h5]
                  dsimp only at h ⊢
                  cases h6 : parseSecFrac cs3 with
                  | none => rw [h6] at h; exact Option.noConfusion h
                  | some u =>
                      obtain ⟨ss, ff, cs4⟩ := u
                      rw [h6] at h
                      rw [parseSecFrac_appendZ cs3 ss ff cs4 h6]
                      dsimp only at h ⊢
                      cases h7 : parseTZD cs4 with
                      | none => rw [h7] at h; exact Option.noConfusion h
                      | some v =>
                          obtain ⟨tzo, cs5⟩ := v
                          rw [h7] at h
                          dsimp only at h
                          simp only [Option.some.injEq, Prod.mk.injEq] at h
                          obtain ⟨h1, h2⟩ := h
                          subst h2
                          subst h1
                          have htz : tzo = some off := ht
                          subst htz
                          rw [parseTZD_appendZ_some cs4 off h7]

theorem parseDateTime_appendZ_noTime (cs : List Char) (c : DateTimeComps)
    (h : parseDateTime cs = some c) (hct : c.time = none) :
    parseDateTime (cs ++ ['Z']) = none := by
  simp only [parseDateTime] at h ⊢
  cases h4 : takeDigits 4 cs with
  | none => rw [h4] at h; exact Option.noConfusion h
  | some p =>
      obtain ⟨y, cs1⟩ := p
      rw [h4] at h
      rw [takeDigits_append ['Z'] 4 cs y cs1 h4]
      dsimp only at h ⊢
      cases h5 : parseMonthDay cs1 with
      | none => rw [h5] at h; exact Option.noConfusion h
      | some q =>
          obtain ⟨mo, d, cs2⟩ := q
          rw [h5] at h
          rw [parseMonthDay_appendZ cs1 mo d cs2 h5]
          dsimp only at h ⊢
          cases cs2 with
          | nil => simp [parseTimePart]
          | cons c2 cs2' =>
              simp only [List.cons_append] at h ⊢
              cases h6 : parseTimePart (c2 :: cs2') with
              | none => rw [h6] at h; exact Option.noConfusion h
              | some u =>
                  obtain ⟨t, cs3⟩ := u
                  rw [h6] at h
                  dsimp only at h
                  cases cs3 with
                  | nil =>
                      simp only [Option.some.injEq] at h
                      rw [← h] at hct
                      exact Option.noConfusion hct
                  | cons c3 cs3' => exact Option.noConfusion h

theorem parseDateTime_appendZ_localTime (cs : List Char) (cc : DateTimeComps)
    (t : TimeComps) (h : parseDateTime cs = some cc) (hct : cc.time = some t)
    (htz : t.tzOffset = none) :
    parseDateTime (cs ++ ['Z']) =
      some ⟨cc.year, cc.month, cc.day, some { t with tzOffset := some 0 }⟩ := by
  simp only [parseDateTime] at h ⊢
  cases h4 : takeDigits 4 cs with
  | none => rw [h4] at h; exact Option.noConfusion h
  | some p =>
      obtain ⟨y, cs1⟩ := p
      rw [h4] at h
      rw [takeDigits_append ['Z'] 4 cs y cs1 h4]
      dsimp only at h ⊢
      cases h5 : parseMonthDay cs1 with
      | none => rw [h5] at h; exact Option.noConfusion h
      | some q =>
          obtain ⟨mo, d, cs2⟩ := q
          rw [h5] at h
          rw [parseMonthDay_appendZ cs1 mo d cs2 h5]
          dsimp only at h ⊢
          cases cs2 with
          | nil =>
              simp only [Option.some.injEq] at h
              rw [← h] at hct
              exact Option.noConfusion hct
          | cons c2 cs2' =>
              simp only [List.cons_append] at h ⊢
              cases h6 : parseTimePart (c2 :: cs2') with
              | none => rw [h6] at h; exact Option.noConfusion h
              | some u =>
                  obtain ⟨t', cs3⟩ := u
                  rw [h6] at h
                  dsimp only at h
                  cases cs3 with
                  | cons c3 cs3' => exact Option.noConfusion h
                  | nil =>
                      simp only [Option.some.injEq] at h
                      subst h
                      have ht' : t' = t := Option.some.inj hct
                      subst ht'
                      have e := parseTimePart_appendZ_none (c2 :: cs2') t' h6 htz
                      rw [List.cons_append] at e
                      rw [e]

theorem parseDateTime_appendZ_offsetTime (cs : List Char) (cc : DateTimeComps)
    (t : TimeComps) (off : Int) (h : parseDateTime cs = some cc)
    (hct : cc.time = some t) (htz : t.tzOffset = some off) :
    parseDateTime (cs ++ ['Z']) = none := by
  simp only [parseDateTime] at h ⊢
  cases h4 : takeDigits 4 cs with
  | none => rw [h4] at h; exact Option.noConfusion h
  | some p =>
      obtain ⟨y, cs1⟩ := p
      rw [h4] at h
      rw [takeDigits_append ['Z'] 4 cs y cs1 h4]
      dsimp only at h ⊢
      cases h5 : parseMonthDay cs1 with
      | none => rw [h5] at h; exact Option.noConfusion h
      | some q =>
          obtain ⟨mo, d, cs2⟩ := q
          rw [h5] at h
          rw [parseMonthDay_appendZ cs1 mo d cs2 h5]
          dsimp only at h ⊢
          cases cs2 with
          | nil =>
              simp only [Option.some.injEq] at h
              rw [← h] at hct
              exact Option.noConfusion hct
          | cons c2 cs2' =>
              simp only [List.cons_append] at h ⊢
              cases h6 : parseTimePart (c2 :: cs2') with
              | none => rw [h6] at h; exact Option.noConfusion h
              | some u =>
                  obtain ⟨t', cs3⟩ := u
                  rw [h6] at h
                  dsimp only at h
                  cases cs3 with
                  | cons c3 cs3' => exact Option.noConfusion h
                  | nil =>
                      simp only [Option.some.injEq] at h
                      subst h
                      have ht' : t' = t := Option.some.inj hct
                      subst ht'
                      have e := parseTimePart_appendZ_some (c2 :: cs2') t' off h6 htz
                      rw [List.cons_append] at e
                      rw [e]

theorem strToList_append (s t : String) : (s ++ t).toList = s.toList ++ t.toList := by
  cases s with
  | mk l1 =>
      cases t with
      | mk l2 => rfl

theorem validComps_setZ (c : DateTimeComps) (t : TimeComps) (hct : c.time = some t) :
    validComps ⟨c.year, c.month, c.day, some { t with tzOffset := some 0 }⟩ =
      validComps c := by
  simp [validComps, hct]

theorem compsToMillis_setZ (tz : Int) (c : DateTimeComps) (t : TimeComps)
    (hct : c.time = some t) :
    compsToMillis tz ⟨c.year, c.month, c.day, some { t with tzOffset := some 0 }⟩ =
      utcInstant c := by
  simp [compsToMillis, utcInstant, forceUTC, hct]

theorem jsDateParse_appendZ_localTime (tz : Int) (s : String) (c : DateTimeComps)
    (t : TimeComps) (hp : parseDateTime s.toList = some c) (hct : c.time = some t)
    (htz : t.tzOffset = none) :
    jsDateParse tz (s ++ "Z") = if validComps c then some (utcInstant c) else none := by
  have e1 : (s ++ "Z").toList = s.toList ++ ['Z'] := by
    rw [strToList_append]
    rfl
  simp only [jsDateParse, e1]
  rw [parseDateTime_appendZ_localTime s.toList c t hp hct htz]
  dsimp only
  rw [validComps_setZ c t hct]
  by_cases hv : validComps c = true
  · rw [if_pos hv, if_pos hv, compsToMillis_setZ tz c t hct]
  · rw [if_neg hv, if_neg hv]

theorem jsDateParse_appendZ_offsetTime (tz : Int) (s : String) (c : DateTimeComps)
    (t : TimeComps) (off : Int) (hp : parseDateTime s.toList = some c)
    (hct : c.time = some t) (htz : t.tzOffset = some off) :
    jsDateParse tz (s ++ "Z") = none := by
  have e1 : (s ++ "Z").toList = s.toList ++ ['Z'] := by
    rw [strToList_append]
    rfl
  simp only [jsDateParse, e1]
  rw [parseDateTime_appendZ_offsetTime s.toList c t off hp hct htz]

theorem bareDate_shape (s : String) (h : matchesBareDate s = true) :
    ∃ y1 y2 y3 y4 m1 m2 d1 d2 : Char,
      s.toList = [y1, y2, y3, y4, '-', m1, m2, '-', d1, d2] ∧
      y1.isDigit = true ∧ y2.isDigit = true ∧ y3.isDigit = true ∧ y4.isDigit = true ∧
      m1.isDigit = true ∧ m2.isDigit = true ∧ d1.isDigit = true ∧ d2.isDigit = true := by
  unfold matchesBareDate at h
  split at h
  next y1 y2 y3 y4 c1 m1 m2 c2 d1 d2 heq =>
      simp only [Bool.and_eq_true, beq_iff_eq] at h
      obtain ⟨⟨⟨⟨⟨⟨⟨⟨⟨hy1, hy2⟩, hy3⟩, hy4⟩, hc1⟩, hm1⟩, hm2⟩, hc2⟩, hd1⟩, hd2⟩ := h
      subst hc1
      subst hc2
      exact ⟨y1, y2, y3, y4, m1, m2, d1, d2, heq, hy1, hy2, hy3, hy4, hm1, hm2, hd1, hd2⟩
  next => exact absurd h (by simp)

theorem char_contains_false_of_not_mem {a : Char} {l : List Char} (h : a ∉ l) :
    l.contains a = false := by
  cases hc : l.contains a
  · rfl
  · exact absurd (by simpa using hc) h

theorem bareDate_noT (s : String) (h : matchesBareDate s = true) :
    strContains s 'T' = false := by
  obtain ⟨y1, y2, y3, y4, m1, m2, d1, d2, heq, hy1, hy2, hy3, hy4, hm1, hm2, hd1, hd2⟩ :=
    bareDate_shape s h
  simp only [strContains, heq]
  apply char_contains_false_of_not_mem
  intro hmem
  simp only [List.mem_cons, List.not_mem_nil, or_false] at hmem
  rcases hmem with h' | h' | h' | h' | h' | h' | h' | h' | h' | h'
  · rw [← h'] at hy1; exact absurd hy1 (by decide)
  · rw [← h'] at hy2; exact absurd hy2 (by decide)
  · rw [← h'] at hy3; exact absurd hy3 (by decide)
  · rw [← h'] at hy4; exact absurd hy4 (by decide)
  · exact absurd h' (by decide)
  · rw [← h'] at hm1; exact absurd hm1 (by decide)
  · rw [← h'] at hm2; exact absurd hm2 (by decide)
  · exact absurd h' (by decide)
  · rw [← h'] at hd1; exact absurd hd1 (by decide)
  · rw [← h'] at hd2; exact absurd hd2 (by decide)

theorem validComps_midnight (y : Int) (mo d : Nat) :
    validComps ⟨y, mo, d, some ⟨0, 0, 0, 0, some 0⟩⟩ = validComps ⟨y, mo, d, none⟩ := by
  simp [validComps]

theorem compsToMillis_midnight (tz : Int) (y : Int) (mo d : Nat) :
    compsToMillis tz ⟨y, mo, d, some ⟨0, 0, 0, 0, some 0⟩⟩ =
      compsToMillis tz ⟨y, mo, d, none⟩ := by
  simp [compsToMillis]

theorem jsDateParse_bare_extend (tz : Int) (s : String) (h : matchesBareDate s = true) :
    jsDateParse tz (s ++ "T00:00:00Z") = jsDateParse tz s := by
  obtain ⟨y1, y2, y3, y4, m1, m2, d1, d2, heq, hy1, hy2, hy3, hy4, hm1, hm2, hd1, hd2⟩ :=
    bareDate_shape s h
  have e1 : (s ++ "T00:00:00Z").toList =
      [y1, y2, y3, y4, '-', m1, m2, '-', d1, d2] ++
        ['T', '0', '0', ':', '0', '0', ':', '0', '0', 'Z'] := by
    rw [strToList_append, heq]
    rfl
  have hptp : parseTimePart ['T', '0', '0', ':', '0', '0', ':', '0', '0', 'Z'] =
      some (⟨0, 0, 0, 0, some 0⟩, []) := by decide
  simp only [jsDateParse, e1, heq]
  simp only [List.cons_append, List.nil_append]
  simp only [parseDateTime, takeDigits, takeDigitsAux, hy1, hy2, hy3, hy4, hm1, hm2,
    hd1, hd2, if_true, eq_self_iff_true, parseMonthDay, hptp]
  rw [validComps_midnight, compsToMillis_midnight]

/-- Claim C3 fails on the code: `"2024-05-26T14:00:00+02:00"` is a valid
ISO-8601 timestamp that parses to the instant 2024-05-26T12:00:00Z
(epoch milliseconds 1716724800000), so under the claim it should be
normalized; but the function appends a second designator (`...+02:00Z`),
making the string unparseable, and throws `InvalidTimestamp` for an input
that does parse to a valid instant. -/
theorem C3_counterexample :
    jsDateParse 0 "2024-05-26T14:00:00+02:00" = some 1716724800000 ∧
    validateAndFormatTimestamp 0 "2024-05-26T14:00:00+02:00" = none := by
  decide

/-- Claim C3 amended: `validateAndFormatTimestamp` returns the canonical
ISO-8601 UTC string of the input's instant for: (1) ISO-8601 strings with
the UTC marker, parsed as-is (and it fails exactly when that parse fails);
(2) ISO-8601 date-times without any timezone designator, treated as UTC;
(3) bare `YYYY-MM-DD` dates, treated as UTC midnight; (4) any other
parseable string, parsed as-is.  However an ISO-8601 date-time carrying a
numeric UTC offset — although parseable as a timestamp — is always
rejected with `InvalidTimestamp`, because the code appends `'Z'` to every
string containing `T` but not `Z`. -/
theorem C3_timestamp_normalizer :
    (∀ (tz : Int) (s : String) (m : Int),
        strContains s 'T' = true → strContains s 'Z' = true →
        jsDateParse tz s = some m →
        validateAndFormatTimestamp tz s = some (toISOString m)) ∧
    (∀ (tz : Int) (s : String),
        strContains s 'T' = true → strContains s 'Z' = true →
        jsDateParse tz s = none →
        validateAndFormatTimestamp tz s = none) ∧
    (∀ (tz : Int) (s : String) (c : DateTimeComps) (t : TimeComps),
        strContains s 'T' = true → strContains s 'Z' = false →
        parseDateTime s.toList = some c → c.time = some t → t.tzOffset = none →
        validateAndFormatTimestamp tz s =
          if validComps c then some (toISOString (utcInstant c)) else none) ∧
    (∀ (tz : Int) (s : String) (c : DateTimeComps) (t : TimeComps) (off : Int),
        strContains s 'T' = true → strContains s 'Z' = false →
        parseDateTime s.toList = some c → c.time = some t → t.tzOffset = some off →
        validateAndFormatTimestamp tz s = none) ∧
    (∀ (tz : Int) (s : String),
        matchesBareDate s = true →
        validateAndFormatTimestamp tz s = (jsDateParse tz s).map toISOString) ∧
    (∀ (tz : Int) (s : String),
        strContains s 'T' = false → matchesBareDate s = false →
        validateAndFormatTimestamp tz s = (jsDateParse tz s).map toISOString) := by
  refine ⟨?_, ?_, ?_, ?_, ?_, ?_⟩
  · intro tz s m h1 h2 hp
    simp [validateAndFormatTimestamp, h1, h2, hp]
  · intro tz s h1 h2 hp
    simp [validateAndFormatTimestamp, h1, h2, hp]
  · intro tz s c t h1 h2 hp hct htz
    have hB : validateAndFormatTimestamp tz s =
        (jsDateParse tz (s ++ "Z")).map toISOString := by
      simp [validateAndFormatTimestamp, h1, h2]
    rw [hB, jsDateParse_appendZ_localTime tz s c t hp hct htz]
    by_cases hv : validComps c = true
    · rw [if_pos hv, if_pos hv]
      rfl
    · rw [if_neg hv, if_neg hv]
      rfl
  · intro tz s c t off h1 h2 hp hct htz
    have hB : validateAndFormatTimestamp tz s =
        (jsDateParse tz (s ++ "Z")).map toISOString := by
      simp [validateAndFormatTimestamp, h1, h2]
    rw [hB, jsDateParse_appendZ_offsetTime tz s c t off hp hct htz]
    rfl
  · intro tz s h
    have hT := bareDate_noT s h
    simp only [validateAndFormatTimestamp, hT, h, Bool.false_and, Bool.false_eq_true,
      if_false, if_true]
    rw [jsDateParse_bare_extend tz s h]
  · intro tz s h1 h2
    simp [validateAndFormatTimestamp, h1, h2]

/-- Witness for C3 at a full ISO-8601 UTC input. -/
theorem C3_witness :
    validateAndFormatTimestamp 0 "2024-05-26T19:00:00Z" =
      some (toISOString 1716750000000) ∧
    toISOString 1716750000000 = "2024-05-26T19:00:00.000Z" :=
  ⟨C3_timestamp_normalizer.1 0 "2024-05-26T19:00:00Z" 1716750000000
      (by decide) (by decide) (by decide),
   by decide⟩
